import Mathlib

/-!
Verification of the IndoGuide retrieval / evaluation core.

This file gives a shallow embedding, in Lean 4, of the algorithmic core of
the IndoGuide repository: the retrieval metrics of `evaluate_batch.py`
(Recall@K, nDCG@K, the LLM-judge JSON parsing and the aggregation of judge
ratings), the three retrieval strategies and the context formatter of
`core/rag_system.py`, and the dialogue-replay loop of `batch_replay.py`.

Modelling conventions:
* Python dicts holding a snippet become the structure `Snippet`; ids are
  embedded as `Int` (Python compares `str(id)`, and `str` is injective on
  integers, so string equality of ids coincides with id equality).
* Python floats are embedded as exact numbers: `Rat` where the code only
  divides integers, and `Real` where the code uses `math.log2`.
* External collaborators (the vector store, the cross-encoder, the
  conversational and reranking models, `json.loads`) are parameters of the
  embedded functions; the code under `src/` is embedded verbatim.
* Exceptions become `Except` / `Option` results.
-/

/-- A knowledge-base snippet (`id, topic, title, content, source`), the unit
of content handled by the whole pipeline. -/
structure Snippet where
  id : Int
  topic : String
  title : String
  content : String
  source : String
  deriving DecidableEq, Repr

/-- `config.py`: number of candidates fetched by the initial vector search. -/
def TOP_K_RETRIEVAL : Nat := 10

/-- `config.py`: number of snippets finally returned by `retrieve`. -/
def TOP_K_FINAL : Nat := 4

/-- A snippet with all string fields empty, used to build concrete test
inputs where only the id matters. -/
def mkSnip (i : Int) : Snippet := ⟨i, "", "", "", ""⟩

/-! ## Retrieval metrics (`evaluate_batch.py`) -/

/-- `calculate_recall_at_k` of `evaluate_batch.py`:
`hits = sum(1 for rid in retrieved_ids if rid in ground_truth_ids)` counts,
position by position, the entries of `retrieved[:k]` whose id lies in the
set of ground-truth ids; the result is `hits / len(ground_truth_ids)`,
`0.0` for empty ground truth.  `set(...)` is embedded as `List.dedup`
(only membership and cardinality of the set are used). -/
def calculate_recall_at_k (retrieved ground_truth : List Snippet) (k : Nat) : ℚ :=
  if ground_truth = [] then 0
  else
    let retrieved_ids := (retrieved.take k).map Snippet.id
    let ground_truth_ids := (ground_truth.map Snippet.id).dedup
    let hits := retrieved_ids.countP (fun rid => rid ∈ ground_truth_ids)
    if ground_truth_ids = [] then 0 else (hits : ℚ) / (ground_truth_ids.length : ℚ)

/-- Recall@K as the specification words it:
`|ids(retrieved[:k]) ∩ ids(ground_truth)| / |ids(ground_truth)|`, `0.0`
for empty ground truth.  The two id sets are embedded as deduplicated
lists and the intersection as `List.inter`. -/
def recall_spec (retrieved ground_truth : List Snippet) (k : Nat) : ℚ :=
  if ground_truth = [] then 0
  else
    let retrieved_ids := ((retrieved.take k).map Snippet.id).dedup
    let ground_truth_ids := (ground_truth.map Snippet.id).dedup
    ((retrieved_ids.inter ground_truth_ids).length : ℚ) / (ground_truth_ids.length : ℚ)

theorem countP_mem_eq_length_filter (l gids : List Int) :
    l.countP (fun rid => rid ∈ gids) = (l.filter (fun rid => rid ∈ gids)).length := by
  rw [List.countP_eq_length_filter]

theorem dedup_ne_nil_of_ne_nil {l : List Int} (h : l ≠ []) : l.dedup ≠ [] := by
  intro hd
  exact h ((List.dedup_eq_nil l).mp hd)

/-- Claim C1, counterexample: `calculate_recall_at_k` counts duplicated
retrieved ids once per occurrence, so on `retrieved = [id 1, id 1]`,
`ground_truth = [id 1]`, `k = 4` it returns `2.0`, while the set-intersection
formula of the claim gives `1.0`; in particular the result is not in `[0,1]`. -/
theorem recall_duplicates_counterexample :
    calculate_recall_at_k [mkSnip 1, mkSnip 1] [mkSnip 1] 4 = 2 ∧
    recall_spec [mkSnip 1, mkSnip 1] [mkSnip 1] 4 = 1 ∧
    ¬ (calculate_recall_at_k [mkSnip 1, mkSnip 1] [mkSnip 1] 4 ≤ 1) := by
  refine ⟨?_, ?_, ?_⟩
  · norm_num [calculate_recall_at_k, mkSnip]
  · norm_num [recall_spec, mkSnip]
    decide
  · norm_num [calculate_recall_at_k, mkSnip]

/-- Claim C1 (amended): `calculate_recall_at_k` divides the number of
positions of `retrieved[:k]` carrying a ground-truth id by the number of
distinct ground-truth ids, so duplicated retrieved ids are counted once per
occurrence.  When `retrieved[:k]` has no duplicate ids the result equals the
set-intersection formula of the spec, lies in `[0,1]`, is `0` exactly when
`retrieved[:k]` has no id overlap with the ground truth, and is `1` when
every ground-truth id appears in `retrieved[:k]`; for empty ground truth the
result is `0`. -/
theorem recall_at_k_spec (r g : List Snippet) (k : Nat)
    (hnd : ((r.take k).map Snippet.id).Nodup) :
    calculate_recall_at_k r g k = recall_spec r g k ∧
    (g = [] → calculate_recall_at_k r g k = 0) ∧
    (g ≠ [] →
      0 ≤ calculate_recall_at_k r g k ∧
      calculate_recall_at_k r g k ≤ 1 ∧
      (calculate_recall_at_k r g k = 0 ↔ ∀ s ∈ r.take k, s.id ∉ g.map Snippet.id) ∧
      ((∀ i ∈ g.map Snippet.id, i ∈ (r.take k).map Snippet.id) →
        calculate_recall_at_k r g k = 1)) := by
  by_cases hg : g = []
  · subst hg
    refine ⟨by simp [calculate_recall_at_k, recall_spec], fun _ => by simp [calculate_recall_at_k],
      fun h => absurd rfl h⟩
  · have hmapne : g.map Snippet.id ≠ [] := by simpa [List.map_eq_nil_iff] using hg
    have hgne : (g.map Snippet.id).dedup ≠ [] := dedup_ne_nil_of_ne_nil hmapne
    have hglen : 0 < (((g.map Snippet.id).dedup.length : ℚ)) := by
      have := List.length_pos.mpr hgne
      exact_mod_cast this
    have hcode : calculate_recall_at_k r g k =
        ((((r.take k).map Snippet.id).countP (fun rid => rid ∈ (g.map Snippet.id).dedup) : ℚ)) /
          (((g.map Snippet.id).dedup.length : ℚ)) := by
      simp [calculate_recall_at_k, hg, hgne]
    have hspec : recall_spec r g k =
        (((((r.take k).map Snippet.id).dedup.inter ((g.map Snippet.id).dedup)).length : ℚ)) /
          (((g.map Snippet.id).dedup.length : ℚ)) := by
      simp [recall_spec, hg]
    have hded : ((r.take k).map Snippet.id).dedup = (r.take k).map Snippet.id := hnd.dedup
    have hinter : ((r.take k).map Snippet.id).inter ((g.map Snippet.id).dedup) =
        ((r.take k).map Snippet.id).filter (fun rid => decide (rid ∈ (g.map Snippet.id).dedup)) := by
      simp [List.inter, List.elem_eq_mem]
    have hcount : (((r.take k).map Snippet.id).countP (fun rid => rid ∈ (g.map Snippet.id).dedup)) =
        (((r.take k).map Snippet.id).filter
          (fun rid => decide (rid ∈ (g.map Snippet.id).dedup))).length :=
      List.countP_eq_length_filter _ _
    have hFnd : (((r.take k).map Snippet.id).filter
        (fun rid => decide (rid ∈ (g.map Snippet.id).dedup))).Nodup := hnd.filter _
    have hFsub : (((r.take k).map Snippet.id).filter
        (fun rid => decide (rid ∈ (g.map Snippet.id).dedup))) ⊆ (g.map Snippet.id).dedup := by
      intro x hx
      exact of_decide_eq_true (List.mem_filter.mp hx).2
    have hFle : (((r.take k).map Snippet.id).filter
        (fun rid => decide (rid ∈ (g.map Snippet.id).dedup))).length ≤
        (g.map Snippet.id).dedup.length :=
      (List.subperm_of_subset hFnd hFsub).length_le
    refine ⟨?_, fun h => absurd h hg, fun _ => ⟨?_, ?_, ?_, ?_⟩⟩
    · rw [hcode, hspec, hded, hinter, hcount]
    · rw [hcode]
      positivity
    · rw [hcode, hcount, div_le_one hglen]
      exact_mod_cast hFle
    · rw [hcode, hcount, div_eq_zero_iff]
      constructor
      · intro hc
        rcases hc with hc | hc
        · have hzero : (((r.take k).map Snippet.id).filter
              (fun rid => decide (rid ∈ (g.map Snippet.id).dedup))).length = 0 := by
            exact_mod_cast hc
          have hnil := List.length_eq_zero.mp hzero
          intro s hs hmem
          have hsid : s.id ∈ (r.take k).map Snippet.id := List.mem_map_of_mem _ hs
          have : s.id ∈ (((r.take k).map Snippet.id).filter
              (fun rid => decide (rid ∈ (g.map Snippet.id).dedup))) :=
            List.mem_filter.mpr ⟨hsid, decide_eq_true (List.mem_dedup.mpr hmem)⟩
          rw [hnil] at this
          exact absurd this (List.not_mem_nil _)
        · exact absurd hc (ne_of_gt hglen)
      · intro hnone
        left
        have : (((r.take k).map Snippet.id).filter
            (fun rid => decide (rid ∈ (g.map Snippet.id).dedup))) = [] := by
          rw [List.filter_eq_nil_iff]
          rintro a ha
          rcases List.mem_map.mp ha with ⟨s, hs, rfl⟩
          simpa [List.mem_dedup] using hnone s hs
        rw [this]
        simp
    · intro hall
      have hgsub : (g.map Snippet.id).dedup ⊆ (((r.take k).map Snippet.id).filter
          (fun rid => decide (rid ∈ (g.map Snippet.id).dedup))) := by
        intro i hi
        exact List.mem_filter.mpr ⟨hall i (List.mem_dedup.mp hi), decide_eq_true hi⟩
      have hperm := (List.subperm_of_subset hFnd hFsub).antisymm
        (List.subperm_of_subset (List.nodup_dedup _) hgsub)
      rw [hcode, hcount, hperm.length_eq]
      exact div_self (ne_of_gt hglen)

/-- Witness for `recall_at_k_spec` at a concrete duplicate-free input. -/
theorem recall_at_k_spec_witness :
    calculate_recall_at_k [mkSnip 1, mkSnip 2] [mkSnip 2] 4 =
      recall_spec [mkSnip 1, mkSnip 2] [mkSnip 2] 4 ∧
    calculate_recall_at_k [mkSnip 1, mkSnip 2] [mkSnip 2] 4 ≤ 1 :=
  ⟨(recall_at_k_spec [mkSnip 1, mkSnip 2] [mkSnip 2] 4 (by decide)).1,
    ((recall_at_k_spec [mkSnip 1, mkSnip 2] [mkSnip 2] 4 (by decide)).2.2 (by decide)).2.1⟩

/-! ## nDCG (`evaluate_batch.py`) -/

/-- `calculate_ndcg_at_k` of `evaluate_batch.py`: binary relevance against the
set of ground-truth ids, discount `1 / log2(i + 2)` accumulated by a loop over
`enumerate(retrieved_ids)`, ideal DCG accumulated over
`ideal_rels = [1.0] * min(len(ground_truth_ids), k)`, and
`dcg / idcg if idcg > 0 else 0.0`; `0.0` for empty ground truth.
`math.log2` forces the embedding into `Real`. -/
noncomputable def calculate_ndcg_at_k (retrieved ground_truth : List Snippet) (k : Nat) : ℝ :=
  if ground_truth = [] then 0
  else
    let retrieved_ids := (retrieved.take k).map Snippet.id
    let ground_truth_ids := (ground_truth.map Snippet.id).dedup
    let dcg := retrieved_ids.enum.foldl
      (fun acc p =>
        acc + (if p.2 ∈ ground_truth_ids then (1:ℝ) else 0) / Real.logb 2 ((p.1 : ℝ) + 2)) 0
    let ideal_rels := List.replicate (min ground_truth_ids.length k) (1:ℝ)
    let idcg := ideal_rels.enum.foldl
      (fun acc p => acc + p.2 / Real.logb 2 ((p.1 : ℝ) + 2)) 0
    if 0 < idcg then dcg / idcg else 0

/-- DCG of a list of gains, as the specification words it: the gain at
0-indexed position `i` is discounted by `1 / log2(i + 2)`. -/
noncomputable def dcg_spec (rels : List ℝ) : ℝ :=
  (rels.enum.map (fun p => p.2 / Real.logb 2 ((p.1 : ℝ) + 2))).sum

/-- nDCG@K as the specification words it: binary relevance with gain `1` for
a relevant id, normalisation by the ideal DCG obtained by placing
`min(|ground_truth|, k)` relevant items first (`|ground_truth|` read as the
number of distinct ground-truth ids, the set cardinality used throughout
§4.4 of the spec), and `0.0` when the ideal DCG is `0`. -/
noncomputable def ndcg_spec (retrieved ground_truth : List Snippet) (k : Nat) : ℝ :=
  let ground_truth_ids := (ground_truth.map Snippet.id).dedup
  let gains := ((retrieved.take k).map Snippet.id).map
    (fun rid => if rid ∈ ground_truth_ids then (1:ℝ) else 0)
  let idcg := dcg_spec (List.replicate (min ground_truth_ids.length k) 1)
  if idcg = 0 then 0 else dcg_spec gains / idcg

theorem foldl_add_eq_sum {α : Type} (f : α → ℝ) (l : List α) (a : ℝ) :
    l.foldl (fun acc x => acc + f x) a = a + (l.map f).sum := by
  induction l generalizing a with
  | nil => simp
  | cons x xs ih => simp [ih (a + f x), add_assoc]

theorem logb_two_idx_pos (i : ℕ) : 0 < Real.logb 2 ((i : ℝ) + 2) := by
  have hi : (0:ℝ) ≤ (i : ℝ) := Nat.cast_nonneg i
  exact Real.logb_pos (by norm_num) (by linarith)

theorem dcg_spec_replicate_nonneg (m : ℕ) : 0 ≤ dcg_spec (List.replicate m 1) := by
  apply List.sum_nonneg
  intro x hx
  rcases List.mem_map.mp hx with ⟨p, hp, rfl⟩
  have hp2 : p.2 = 1 := by
    rcases List.mem_enum hp with ⟨hlt, hget⟩
    simpa using hget
  rw [hp2]
  exact le_of_lt (div_pos one_pos (logb_two_idx_pos p.1))

theorem dcg_spec_replicate_pos {m : ℕ} (hm : 0 < m) : 0 < dcg_spec (List.replicate m 1) := by
  apply List.sum_pos
  · intro x hx
    rcases List.mem_map.mp hx with ⟨p, hp, rfl⟩
    have hp2 : p.2 = 1 := by
      rcases List.mem_enum hp with ⟨hlt, hget⟩
      simpa using hget
    rw [hp2]
    exact div_pos one_pos (logb_two_idx_pos p.1)
  · have : (List.replicate m (1:ℝ)).enum ≠ [] := by
      simp only [ne_eq, ← List.length_pos, List.enum_length, List.length_replicate]
      exact hm
    simpa using this

theorem logb_two_four : Real.logb 2 4 = 2 := by
  rw [show (4:ℝ) = 2 ^ (2:ℕ) by norm_num, Real.logb_pow, Real.logb_self_eq_one (by norm_num)]
  norm_num

theorem dcg_spec_map_gain (l : List Int) (gain : Int → ℝ) :
    dcg_spec (l.map gain) = (l.enum.map (fun p => gain p.2 / Real.logb 2 ((p.1 : ℝ) + 2))).sum := by
  unfold dcg_spec
  rw [List.enum_map, List.map_map]
  rfl

/-- Claim C6: `calculate_ndcg_at_k` computes binary-relevance DCG with
discount `1 / log2(position + 2)` (0-indexed positions), normalises by the
ideal DCG of `min(|ground_truth|, k)` relevant items placed first
(`|ground_truth|` being the number of distinct ground-truth ids), and
returns `0.0` when the ideal DCG is `0`; moreover with `k = 4` and ground
truth `{1, 2}`, retrieved `[1, 2, 9, 9]` yields nDCG `= 1` and retrieved
`[9, 1, 2, 9]` yields an nDCG strictly between `0` and `1`. -/
theorem ndcg_at_k_spec :
    (∀ (r g : List Snippet) (k : Nat), calculate_ndcg_at_k r g k = ndcg_spec r g k) ∧
    calculate_ndcg_at_k [mkSnip 1, mkSnip 2, mkSnip 9, mkSnip 9] [mkSnip 1, mkSnip 2] 4 = 1 ∧
    0 < calculate_ndcg_at_k [mkSnip 9, mkSnip 1, mkSnip 2, mkSnip 9] [mkSnip 1, mkSnip 2] 4 ∧
    calculate_ndcg_at_k [mkSnip 9, mkSnip 1, mkSnip 2, mkSnip 9] [mkSnip 1, mkSnip 2] 4 < 1 := by
  have h2 : Real.logb 2 2 = 1 := Real.logb_self_eq_one (by norm_num)
  have h3 : 0 < Real.logb 2 3 := Real.logb_pos (by norm_num) (by norm_num)
  have hinv : 0 < (Real.logb 2 3)⁻¹ := inv_pos.mpr h3
  have hpos : 0 < 1 + (Real.logb 2 3)⁻¹ := by linarith
  refine ⟨?_, ?_, ?_⟩
  · intro r g k
    by_cases hg : g = []
    · subst hg
      simp [calculate_ndcg_at_k, ndcg_spec, dcg_spec]
    · simp only [calculate_ndcg_at_k, ndcg_spec, if_neg hg]
      rw [foldl_add_eq_sum, foldl_add_eq_sum, zero_add, zero_add, dcg_spec_map_gain]
      set I := ((List.replicate (min ((g.map Snippet.id).dedup.length) k) (1:ℝ)).enum.map
        (fun p => p.2 / Real.logb 2 ((p.1 : ℝ) + 2))).sum with hI
      have hIspec : dcg_spec (List.replicate (min ((g.map Snippet.id).dedup.length) k) 1) = I := rfl
      rw [hIspec]
      have hnn : 0 ≤ I := by rw [← hIspec]; exact dcg_spec_replicate_nonneg _
      by_cases h0 : I = 0
      · simp [h0]
      · rw [if_pos (lt_of_le_of_ne hnn (Ne.symm h0)), if_neg h0]
  · simp only [calculate_ndcg_at_k, mkSnip, List.take, List.map, List.dedup, List.enum,
      List.enumFrom, List.foldl, List.replicate]
    norm_num [h2]
    rw [if_neg (by decide), if_pos hpos]
    exact div_self (ne_of_gt hpos)
  · simp only [calculate_ndcg_at_k, mkSnip, List.take, List.map, List.dedup, List.enum,
      List.enumFrom, List.foldl, List.replicate]
    norm_num [h2, logb_two_four]
    rw [if_neg (by decide), if_pos hpos]
    constructor
    · apply div_pos (by linarith) hpos
    · rw [div_lt_one hpos]
      linarith

/-! ## Aggregation of judge ratings (`process_batch_file` of `evaluate_batch.py`) -/

/-- The per-rubric collection loop of `process_batch_file`: a turn evaluation
result is appended to `eval_metrics[metric]` only when `res["rating"] > 0`;
a rating of `0` (in particular the parse-failure sentinel) is dropped. -/
def collect_ratings (ratings : List Int) : List Int :=
  ratings.foldl (fun acc r => if 0 < r then acc ++ [r] else acc) []

/-- The `generation_quality` entry of the summary: `mean(v) if v else 0`
over the collected ratings; `statistics.mean` of integers is embedded as the
exact rational `sum / len`. -/
def generation_quality (ratings : List Int) : ℚ :=
  let v := collect_ratings ratings
  if v = [] then 0 else ((v.map (fun r => (r : ℚ))).sum) / (v.length : ℚ)

/-- Arithmetic mean over all per-turn ratings, zeros included, as claim C4
words it. -/
def mean_all_ratings (ratings : List Int) : ℚ :=
  if ratings = [] then 0
  else ((ratings.map (fun r => (r : ℚ))).sum) / (ratings.length : ℚ)

/-- Claim C4, counterexample: on per-turn ratings `[5, 0]` the summary value
is `5` (the `0` sentinel is dropped by the `rating > 0` guard), while the
mean-with-zeros of the claim is `5/2`. -/
theorem generation_quality_zero_counterexample :
    generation_quality [5, 0] = 5 ∧ mean_all_ratings [5, 0] = 5 / 2 ∧
    generation_quality [5, 0] ≠ mean_all_ratings [5, 0] := by
  refine ⟨?_, ?_, ?_⟩
  · norm_num [generation_quality, collect_ratings]
  · norm_num [mean_all_ratings]
    decide
  · norm_num [generation_quality, mean_all_ratings, collect_ratings,
      List.cons_ne_nil]

theorem collect_ratings_eq_filter_aux (l acc : List Int) :
    l.foldl (fun acc r => if 0 < r then acc ++ [r] else acc) acc =
      acc ++ l.filter (fun r => decide (0 < r)) := by
  induction l generalizing acc with
  | nil => simp
  | cons x xs ih =>
    by_cases hx : 0 < x <;> simp [hx, ih, List.filter_cons]

theorem collect_ratings_eq_filter (l : List Int) :
    collect_ratings l = l.filter (fun r => decide (0 < r)) := by
  simpa using collect_ratings_eq_filter_aux l []

/-- Claim C4 (amended): each generation-quality value of the summary is the
arithmetic mean of the strictly positive per-turn ratings for that rubric;
ratings of `0` (the parse-failure sentinel) are excluded from the mean, and
the value is `0` when no positive rating exists. -/
theorem generation_quality_mean_positive (ratings : List Int) :
    generation_quality ratings =
      if ratings.filter (fun r => decide (0 < r)) = [] then 0
      else (((ratings.filter (fun r => decide (0 < r))).map (fun r => (r : ℚ))).sum) /
        ((ratings.filter (fun r => decide (0 < r))).length : ℚ) := by
  simp [generation_quality, collect_ratings_eq_filter]

/-! ## Judge-response parsing (`parse_llm_json` of `evaluate_batch.py`)

Strings are handled as `List Char`; `String.strip` of Python is `pyStrip`.
Python's `json.loads` is standard-library code outside the repository, so
`parse_llm_json` is parameterised by a `loads` function returning `none`
exactly where `json.loads` would raise. -/

/-- Characters removed by Python `str.strip()` (its ASCII whitespace set). -/
def isPySpace (c : Char) : Bool :=
  (c == ' ') || (c == '\t') || (c == '\n') || (c == '\r') || (c == '\x0b') || (c == '\x0c')

/-- Python `str.strip()`: drop leading and trailing whitespace. -/
def pyStrip (s : List Char) : List Char :=
  ((s.dropWhile isPySpace).reverse.dropWhile isPySpace).reverse

/-- The leading-fence removal of `parse_llm_json`:
`if cleaned.startswith("```json"): cleaned = cleaned[7:]`
`elif cleaned.startswith("```"): cleaned = cleaned[3:]`. -/
def strip_leading_fence (cleaned : List Char) : List Char :=
  if "```json".data.isPrefixOf cleaned then cleaned.drop 7
  else if "```".data.isPrefixOf cleaned then cleaned.drop 3
  else cleaned

/-- The trailing-fence removal of `parse_llm_json`:
`if cleaned.endswith("```"): cleaned = cleaned[:-3]`. -/
def strip_trailing_fence (cleaned : List Char) : List Char :=
  if "```".data.isSuffixOf cleaned then cleaned.take (cleaned.length - 3)
  else cleaned

/-- The full cleanup pipeline of `parse_llm_json`: strip, remove a leading
fence, remove a trailing fence, strip again (the argument of `json.loads`). -/
def clean_response (response : List Char) : List Char :=
  pyStrip (strip_trailing_fence (strip_leading_fence (pyStrip response)))

/-- The values relevant to judge parsing: a JSON number or the
`{rating, reason}` object. -/
inductive JsonVal where
  | num (n : Int)
  | obj (rating : Int) (reason : String)
  deriving DecidableEq, Repr

/-- `parse_llm_json` of `evaluate_batch.py`: clean the response, parse it
with `json.loads` (the parameter `loads`; `none` models a raised
exception), and recover any failure with the sentinel
`{"rating": 0, "reason": "Failed to parse LLM response"}`. -/
def parse_llm_json (loads : List Char → Option JsonVal) (response : List Char) : JsonVal :=
  match loads (clean_response response) with
  | some v => v
  | none => JsonVal.obj 0 "Failed to parse LLM response"

/-- A response wrapped in triple-backtick code-fence markers, the wrapping
named by claim C8. -/
def code_fence_wrap (s : List Char) : List Char := "```json\n".data ++ s ++ "\n```".data

/-- Modelled from the spec: Python's `json.loads` is outside the repository;
this is its restriction to unsigned decimal integer literals, enough to
exhibit inputs accepted by `json.loads` (`"1"`, value `1`) and refused by it
(`"1``` + "`" + `"`, an exception, i.e. `none`). -/
def loads_int_fragment (s : List Char) : Option JsonVal :=
  if s ≠ [] ∧ s.all Char.isDigit then
    some (JsonVal.num (s.foldl (fun acc c => acc * 10 + ((c.toNat : Int) - 48)) 0))
  else none

theorem dropWhile_dropWhile (p : Char → Bool) (l : List Char) :
    (l.dropWhile p).dropWhile p = l.dropWhile p := by
  induction l with
  | nil => simp
  | cons a l ih => by_cases h : p a <;> simp [List.dropWhile_cons, h, ih]

theorem backStrip_append_space {c : Char} (hc : isPySpace c = true) (y : List Char) :
    (((y ++ [c]).reverse.dropWhile isPySpace).reverse) =
      ((y.reverse.dropWhile isPySpace).reverse) := by
  simp [List.reverse_append, List.dropWhile_cons, hc]

theorem pyStrip_cons_space {c : Char} (hc : isPySpace c = true) (l : List Char) :
    pyStrip (c :: l) = pyStrip l := by
  simp [pyStrip, List.dropWhile_cons, hc]

theorem pyStrip_append_space {c : Char} (hc : isPySpace c = true) (l : List Char) :
    pyStrip (l ++ [c]) = pyStrip l := by
  induction l with
  | nil => simp [pyStrip, List.dropWhile_cons, hc]
  | cons a l ih =>
    by_cases h : isPySpace a
    · rw [List.cons_append, pyStrip_cons_space h, pyStrip_cons_space h, ih]
    · simp only [pyStrip, List.cons_append, List.dropWhile_cons, h, if_neg, Bool.false_eq_true,
        ite_false]
      exact backStrip_append_space hc (a :: l)

theorem dropWhile_eq_self_of_head {a : Char} {l : List Char} (p : Char → Bool)
    (h : (a :: l).dropWhile p = a :: l) : p a = false := by
  by_cases hp : p a
  · rw [List.dropWhile_cons, if_pos hp] at h
    have hle := (List.dropWhile_sublist (l := l) p).length_le
    rw [h] at hle
    simp at hle
  · exact Bool.eq_false_iff.mpr hp

theorem backStrip_prefix (l : List Char) :
    ((l.reverse.dropWhile isPySpace).reverse) <+: l := by
  rw [← List.reverse_suffix]
  simpa using List.dropWhile_suffix (l := l.reverse) isPySpace

theorem frontStrip_backStrip {x : List Char}
    (hx : x.dropWhile isPySpace = x) :
    ((x.reverse.dropWhile isPySpace).reverse).dropWhile isPySpace =
      (x.reverse.dropWhile isPySpace).reverse := by
  cases hb : (x.reverse.dropWhile isPySpace).reverse with
  | nil => simp
  | cons c t =>
    have hpre : (c :: t) <+: x := hb ▸ backStrip_prefix x
    rcases hpre with ⟨r, hr⟩
    have hx' : x.dropWhile isPySpace = x := hx
    rw [← hr] at hx'
    have hc : isPySpace c = false := by
      rw [List.cons_append] at hx'
      exact dropWhile_eq_self_of_head isPySpace hx'
    rw [List.dropWhile_cons, hc]
    simp

theorem pyStrip_idem (s : List Char) : pyStrip (pyStrip s) = pyStrip s := by
  unfold pyStrip
  have hA : (s.dropWhile isPySpace).dropWhile isPySpace = s.dropWhile isPySpace :=
    dropWhile_dropWhile _ _
  rw [frontStrip_backStrip hA]
  simp [dropWhile_dropWhile]

theorem isPySpace_backtick : isPySpace '`' = false := by decide

theorem pyStrip_wrap (s : List Char) : pyStrip (code_fence_wrap s) = code_fence_wrap s := by
  have hfront : (code_fence_wrap s).dropWhile isPySpace = code_fence_wrap s := by
    rw [show code_fence_wrap s = '`' :: ("``json\n".data ++ (s ++ "\n```".data)) from rfl]
    rw [List.dropWhile_cons, isPySpace_backtick]
    simp
  have hrev : (code_fence_wrap s).reverse =
      '`' :: ('`' :: ('`' :: ('\n' :: (s.reverse ++ "```json\n".data.reverse)))) := by
    simp [code_fence_wrap, List.reverse_append]
  have hback : (code_fence_wrap s).reverse.dropWhile isPySpace = (code_fence_wrap s).reverse := by
    rw [hrev, List.dropWhile_cons, isPySpace_backtick]
    simp
  unfold pyStrip
  rw [hfront, hback, List.reverse_reverse]

theorem clean_response_wrap (s : List Char) :
    clean_response (code_fence_wrap s) = pyStrip s := by
  unfold clean_response
  rw [pyStrip_wrap]
  have hlead : strip_leading_fence (code_fence_wrap s) = '\n' :: (s ++ "\n```".data) := by
    unfold strip_leading_fence
    have hpre : "```json".data.isPrefixOf (code_fence_wrap s) = true := by
      rw [List.isPrefixOf_iff_prefix]
      exact ⟨"\n".data ++ s ++ "\n```".data, by simp [code_fence_wrap]⟩
    rw [if_pos hpre]
    rfl
  rw [hlead]
  have htrail : strip_trailing_fence ('\n' :: (s ++ "\n```".data)) = '\n' :: (s ++ ['\n']) := by
    unfold strip_trailing_fence
    have hsuf : "```".data.isSuffixOf ('\n' :: (s ++ "\n```".data)) = true := by
      rw [List.isSuffixOf_iff_suffix]
      exact ⟨'\n' :: (s ++ "\n".data), by simp [List.append_assoc]⟩
    rw [if_pos hsuf]
    have hlen : ('\n' :: (s ++ "\n```".data)).length - 3 = s.length + 2 := by
      simp [List.length_append]
    rw [hlen, show s.length + 2 = (s.length + 1) + 1 from rfl, List.take_succ_cons]
    congr 1
    rw [List.take_append_eq_append_take]
    simp
  rw [htrail, pyStrip_cons_space (by decide) _, pyStrip_append_space (by decide) _]

theorem clean_response_no_fence (s : List Char)
    (h1 : ¬ "```".data.isPrefixOf (pyStrip s) = true)
    (h2 : ¬ "```".data.isSuffixOf (pyStrip s) = true) :
    clean_response s = pyStrip s := by
  unfold clean_response
  have hjson : ¬ "```json".data.isPrefixOf (pyStrip s) = true := by
    intro hj
    apply h1
    rw [List.isPrefixOf_iff_prefix] at hj ⊢
    exact List.IsPrefix.trans (by decide) hj
  unfold strip_leading_fence
  rw [if_neg hjson, if_neg h1]
  unfold strip_trailing_fence
  rw [if_neg h2]
  exact pyStrip_idem s

/-- Claim C8, counterexample: for the content `1` followed by a stray
triple backtick, the unwrapped response parses as the number `1` (the code
treats the stray backticks as a trailing fence and strips them), while the
same content wrapped in code fences fails to parse and yields the sentinel:
wrapping does not always parse identically to the unwrapped equivalent. -/
theorem parse_llm_json_fence_counterexample :
    parse_llm_json loads_int_fragment (code_fence_wrap "1```".data) =
      JsonVal.obj 0 "Failed to parse LLM response" ∧
    parse_llm_json loads_int_fragment "1```".data = JsonVal.num 1 ∧
    parse_llm_json loads_int_fragment (code_fence_wrap "1```".data) ≠
      parse_llm_json loads_int_fragment "1```".data := by
  refine ⟨by decide, by decide, by decide⟩

/-- Claim C8 (amended): for every parser and every response whose stripped
content neither begins nor ends with a triple backtick, parsing the
code-fence-wrapped response yields the same result as parsing the response
itself; and for every response whose cleaned content the parser rejects,
`parse_llm_json` returns exactly the sentinel
`{rating: 0, reason: "Failed to parse LLM response"}` (no exception is
propagated: failure is recovered locally). -/
theorem parse_llm_json_spec (loads : List Char → Option JsonVal) (s : List Char) :
    ((¬ "```".data.isPrefixOf (pyStrip s) = true) →
     (¬ "```".data.isSuffixOf (pyStrip s) = true) →
      parse_llm_json loads (code_fence_wrap s) = parse_llm_json loads s) ∧
    (loads (clean_response s) = none →
      parse_llm_json loads s = JsonVal.obj 0 "Failed to parse LLM response") := by
  constructor
  · intro h1 h2
    unfold parse_llm_json
    rw [clean_response_wrap, clean_response_no_fence s h1 h2]
  · intro h
    unfold parse_llm_json
    rw [h]

/-- Witness for `parse_llm_json_spec` at a concrete fence-free response and
an always-failing parser. -/
theorem parse_llm_json_spec_witness :
    parse_llm_json (fun _ => none) (code_fence_wrap "hello".data) =
      parse_llm_json (fun _ => none) "hello".data ∧
    parse_llm_json (fun _ => none) "hello".data = JsonVal.obj 0 "Failed to parse LLM response" :=
  ⟨(parse_llm_json_spec (fun _ => none) "hello".data).1 (by decide) (by decide),
   (parse_llm_json_spec (fun _ => none) "hello".data).2 rfl⟩

/-! ## Retrieval strategies (`core/rag_system.py`)

The external collaborators are parameters: `candidates` is the list of
snippet metadatas returned, in similarity order, by the Chroma query for
`TOP_K_RETRIEVAL` results (the store is keyed by `id`, so candidate ids are
assumed distinct where stated); `score` is the cross-encoder applied to the
pair `(query, candidate_text)` for the fixed query; `response` is the text
returned by the reranking model. -/

/-- `_retrieve_baseline`: take the first `TOP_K_FINAL` candidates
(`for i in range(min(TOP_K_FINAL, len)): snippets.append(...)`). -/
def retrieve_baseline (candidates : List Snippet) : List Snippet :=
  candidates.take TOP_K_FINAL

/-- The candidate text scored by the cross-encoder:
`f"{topic} - {title}: {content}"`. -/
def candText (c : Snippet) : String :=
  c.topic ++ " - " ++ c.title ++ ": " ++ c.content

/-- `zip(candidates, scores)` with `scores = cross_encoder.predict(pairs)`
where `pairs = [[query, cand_text] for ...]`. -/
def cross_encoder_pairs (score : String → ℚ) (candidates : List Snippet) :
    List (Snippet × ℚ) :=
  candidates.zip (candidates.map (fun cand => score (candText cand)))

/-- `sorted(zip(candidates, scores), key=lambda x: x[1], reverse=True)`:
Python's `sorted` is the stable descending sort by score, i.e. a stable
merge sort under the comparison `b.score ≤ a.score`. -/
def cross_encoder_ranked (score : String → ℚ) (candidates : List Snippet) :
    List (Snippet × ℚ) :=
  (cross_encoder_pairs score candidates).mergeSort (fun a b => decide (b.2 ≤ a.2))

/-- `_retrieve_with_cross_encoder`: score, sort descending (stable), take
the top `TOP_K_FINAL` and return the snippets. -/
def retrieve_with_cross_encoder (score : String → ℚ) (candidates : List Snippet) :
    List Snippet :=
  ((cross_encoder_ranked score candidates).take TOP_K_FINAL).map Prod.fst

/-- One step of the digit-run scanner: inside a run of digits the current
value is extended (`cur * 10 + digit`), a non-digit flushes the completed
run.  This models `re.findall(r"[0-9]+", response)` followed by `int(...)`:
every maximal digit run, as its decimal value, in order of appearance. -/
def extract_ints_step (st : List Int × Option Int) (c : Char) : List Int × Option Int :=
  if c.isDigit then (st.1, some ((st.2.getD 0) * 10 + ((c.toNat : Int) - 48)))
  else
    match st.2 with
    | some n => (st.1 ++ [n], none)
    | none => (st.1, none)

/-- `_parse_llm_rerank_response`: extract all integer tokens of the response
in order of first appearance. -/
def parse_llm_rerank_response (response : String) : List Int :=
  let fin := response.data.foldl extract_ints_step ([], none)
  match fin.2 with
  | some n => fin.1 ++ [n]
  | none => fin.1

/-- `id_to_candidate = {cand["id"]: cand for cand in candidates}` followed by
the lookup `id_to_candidate[doc_id]`: dict building lets a later candidate
override an earlier one with the same id, hence the `foldl`. -/
def id_to_candidate (candidates : List Snippet) (doc_id : Int) : Option Snippet :=
  candidates.foldl (fun acc c => if c.id = doc_id then some c else acc) none

/-- The fallback loop of `_retrieve_with_llm_reranker`: walk the original
candidates, append those whose id is not already selected, and stop as soon
as `TOP_K_FINAL` snippets are reached. -/
def fill_from_candidates : List Snippet → List Snippet → List Snippet
  | [], snippets => snippets
  | c :: rest, snippets =>
    if c.id ∈ snippets.map Snippet.id then fill_from_candidates rest snippets
    else if TOP_K_FINAL ≤ (snippets ++ [c]).length then snippets ++ [c]
    else fill_from_candidates rest (snippets ++ [c])

/-- `_retrieve_with_llm_reranker`: keep, among the first `TOP_K_FINAL`
extracted integer tokens, those that are ids of known candidates
(`for doc_id in ranked_ids[:TOP_K_FINAL]: if doc_id in id_to_candidate`),
then fill from the original candidates if fewer than `TOP_K_FINAL` were
selected. -/
def retrieve_with_llm_reranker (candidates : List Snippet) (response : String) :
    List Snippet :=
  let ranked_ids := parse_llm_rerank_response response
  let snippets := (ranked_ids.take TOP_K_FINAL).filterMap (id_to_candidate candidates)
  if snippets.length < TOP_K_FINAL then fill_from_candidates candidates snippets
  else snippets

/-- The selection described by claim C2: keep the first `TOP_K_FINAL`
*valid* ids of the whole extracted token list (filter before truncating),
then the same fallback. -/
def llm_select_spec (candidates : List Snippet) (response : String) : List Snippet :=
  let valid_ids := (parse_llm_rerank_response response).filter
    (fun i => (id_to_candidate candidates i).isSome)
  let snippets := (valid_ids.take TOP_K_FINAL).filterMap (id_to_candidate candidates)
  if snippets.length < TOP_K_FINAL then fill_from_candidates candidates snippets
  else snippets

/-- `retrieve` of `RAGSystem`: dispatch on the configuration integer;
any value outside `{1, 2, 3}` raises
`ValueError(f"Invalid configuration: {self.config}")`. -/
def retrieve (config : Int) (score : String → ℚ) (candidates : List Snippet)
    (response : String) : Except String (List Snippet) :=
  if config = 1 then Except.ok (retrieve_baseline candidates)
  else if config = 2 then Except.ok (retrieve_with_cross_encoder score candidates)
  else if config = 3 then Except.ok (retrieve_with_llm_reranker candidates response)
  else Except.error ("Invalid configuration: " ++ toString config)

/-- `RAG_CLI_KEY_TO_ID` of `config.py`: the dict
`{"baseline": 1, "crossencoder": 2, "llm": 3}` as a lookup. -/
def RAG_CLI_KEY_TO_ID (key : String) : Option Int :=
  if key = "baseline" then some 1
  else if key = "crossencoder" then some 2
  else if key = "llm" then some 3
  else none

/-- `BatchReplay.__init__`:
`self.rag_config_id = RAG_CLI_KEY_TO_ID.get(rag_config_key, 1)` — an
unknown key silently defaults to configuration `1` (Baseline). -/
def batch_replay_config_id (key : String) : Int :=
  (RAG_CLI_KEY_TO_ID key).getD 1

/-- Claim C5, counterexample: `RAGSystem.retrieve` does reject unknown
integer selectors, but `BatchReplay` maps the unknown CLI key `"bogus"` to
configuration `1` and proceeds with Baseline retrieval instead of failing
fatally. -/
theorem unknown_strategy_counterexample :
    RAG_CLI_KEY_TO_ID "bogus" = none ∧
    batch_replay_config_id "bogus" = 1 ∧
    retrieve (batch_replay_config_id "bogus") (fun _ => 0) [mkSnip 1] "" =
      Except.ok [mkSnip 1] := by
  refine ⟨rfl, rfl, rfl⟩

/-- Claim C5 (amended): `RAGSystem.retrieve` fails with
`ValueError("Invalid configuration: ...")` for every integer selector
outside `{1, 2, 3}`; but `BatchReplay.__init__` maps every unknown CLI
strategy key to configuration `1` (Baseline) and proceeds (the batch CLI
additionally restricts `--config` to the known keys, and its `main` catches
all exceptions and exits normally after printing them). -/
theorem unknown_strategy_spec (config : Int) (score : String → ℚ)
    (candidates : List Snippet) (response : String)
    (h1 : config ≠ 1) (h2 : config ≠ 2) (h3 : config ≠ 3) :
    retrieve config score candidates response =
      Except.error ("Invalid configuration: " ++ toString config) ∧
    (∀ key : String, RAG_CLI_KEY_TO_ID key = none → batch_replay_config_id key = 1) := by
  constructor
  · simp [retrieve, h1, h2, h3]
  · intro key hk
    simp [batch_replay_config_id, hk]

/-- Witness for `unknown_strategy_spec` at the concrete selector `7`. -/
theorem unknown_strategy_spec_witness :
    retrieve 7 (fun _ => 0) [mkSnip 1] "" =
      Except.error ("Invalid configuration: " ++ toString (7 : Int)) ∧
    batch_replay_config_id "bogus" = 1 :=
  ⟨(unknown_strategy_spec 7 (fun _ => 0) [mkSnip 1] "" (by decide) (by decide) (by decide)).1,
   (unknown_strategy_spec 7 (fun _ => 0) [mkSnip 1] "" (by decide) (by decide)
      (by decide)).2 "bogus" rfl⟩

/-- Claim C7: the CrossEncoderRerank variant scores each candidate text
against the query (the parameter `score`), sorts the `(candidate, score)`
pairs by score in descending order with a stable sort — the ranked list is a
permutation of the scored pairs, is pairwise descending, and any two pairs
in original order whose scores tie stay in that order — and returns the
snippets of the top `TOP_K_FINAL` of the sorted list. -/
theorem cross_encoder_rerank_spec (score : String → ℚ) (candidates : List Snippet) :
    retrieve_with_cross_encoder score candidates =
      ((cross_encoder_ranked score candidates).take TOP_K_FINAL).map Prod.fst ∧
    (cross_encoder_ranked score candidates).Perm (cross_encoder_pairs score candidates) ∧
    (cross_encoder_ranked score candidates).Pairwise (fun a b => b.2 ≤ a.2) ∧
    (∀ a b : Snippet × ℚ, a.2 = b.2 →
      [a, b].Sublist (cross_encoder_pairs score candidates) →
      [a, b].Sublist (cross_encoder_ranked score candidates)) := by
  have htrans : ∀ a b c : Snippet × ℚ,
      decide (b.2 ≤ a.2) = true → decide (c.2 ≤ b.2) = true → decide (c.2 ≤ a.2) = true := by
    intro a b c hab hbc
    exact decide_eq_true (le_trans (of_decide_eq_true hbc) (of_decide_eq_true hab))
  have htotal : ∀ a b : Snippet × ℚ,
      (decide (b.2 ≤ a.2) || decide (a.2 ≤ b.2)) = true := by
    intro a b
    rcases le_total b.2 a.2 with h | h
    · simp [h]
    · simp [h]
  refine ⟨rfl, List.mergeSort_perm _ _, ?_, ?_⟩
  · have := @List.sorted_mergeSort (Snippet × ℚ) (fun a b => decide (b.2 ≤ a.2))
      htrans htotal (cross_encoder_pairs score candidates)
    exact this.imp (fun h => of_decide_eq_true h)
  · intro a b hab hsub
    exact List.pair_sublist_mergeSort htrans htotal (decide_eq_true (le_of_eq hab.symm)) hsub

/-- Witness for `cross_encoder_rerank_spec`: two candidates with tied scores
stay in their original similarity order in the ranked list. -/
theorem cross_encoder_rerank_spec_witness :
    [(mkSnip 1, (0 : ℚ)), (mkSnip 2, 0)].Sublist
      (cross_encoder_ranked (fun _ => 0) [mkSnip 1, mkSnip 2]) :=
  (cross_encoder_rerank_spec (fun _ => 0) [mkSnip 1, mkSnip 2]).2.2.2
    (mkSnip 1, 0) (mkSnip 2, 0) rfl (List.Sublist.refl _)

theorem id_to_candidate_foldl_id {i : Int} (cands : List Snippet) :
    ∀ (acc : Option Snippet), (∀ t : Snippet, acc = some t → t.id = i) →
      ∀ s : Snippet,
        cands.foldl (fun acc c => if c.id = i then some c else acc) acc = some s →
        s.id = i := by
  induction cands with
  | nil =>
    intro acc hacc s hs
    exact hacc s hs
  | cons c rest ih =>
    intro acc hacc s hs
    simp only [List.foldl_cons] at hs
    by_cases hc : c.id = i
    · rw [if_pos hc] at hs
      refine ih _ ?_ s hs
      intro t ht
      cases ht
      exact hc
    · rw [if_neg hc] at hs
      exact ih acc hacc s hs

theorem id_to_candidate_id {cands : List Snippet} {i : Int} {s : Snippet}
    (h : id_to_candidate cands i = some s) : s.id = i :=
  id_to_candidate_foldl_id cands none (by intro t ht; cases ht) s h

theorem filterMap_lookup_map_id (cands : List Snippet) (l : List Int) :
    (l.filterMap (id_to_candidate cands)).map Snippet.id =
      l.filter (fun i => (id_to_candidate cands i).isSome) := by
  induction l with
  | nil => simp
  | cons i t ih =>
    cases h : id_to_candidate cands i with
    | none => simp [List.filterMap_cons, h, List.filter_cons, ih]
    | some s => simp [List.filterMap_cons, h, List.filter_cons, ih, id_to_candidate_id h]

theorem fill_from_candidates_length_le (cands : List Snippet) :
    ∀ snips : List Snippet, snips.length < TOP_K_FINAL →
      (fill_from_candidates cands snips).length ≤ TOP_K_FINAL := by
  induction cands with
  | nil =>
    intro snips h
    simpa [fill_from_candidates] using le_of_lt h
  | cons c rest ih =>
    intro snips h
    simp only [fill_from_candidates]
    by_cases hmem : c.id ∈ snips.map Snippet.id
    · rw [if_pos hmem]
      exact ih snips h
    · rw [if_neg hmem]
      by_cases hK : TOP_K_FINAL ≤ (snips ++ [c]).length
      · rw [if_pos hK]
        simp only [List.length_append, List.length_singleton]
        omega
      · rw [if_neg hK]
        exact ih _ (lt_of_not_le hK)

theorem fill_from_candidates_nodup (cands : List Snippet) :
    ∀ snips : List Snippet, (snips.map Snippet.id).Nodup →
      ((fill_from_candidates cands snips).map Snippet.id).Nodup := by
  induction cands with
  | nil =>
    intro snips h
    simpa [fill_from_candidates] using h
  | cons c rest ih =>
    intro snips h
    simp only [fill_from_candidates]
    by_cases hmem : c.id ∈ snips.map Snippet.id
    · rw [if_pos hmem]
      exact ih snips h
    · rw [if_neg hmem]
      have happ : ((snips ++ [c]).map Snippet.id).Nodup := by
        rw [List.map_append]
        refine List.Nodup.append h (by simp) ?_
        intro a ha
        simp only [List.map_cons, List.map_nil, List.mem_cons, List.not_mem_nil, or_false]
        intro he
        exact hmem (he ▸ ha)
      by_cases hK : TOP_K_FINAL ≤ (snips ++ [c]).length
      · rw [if_pos hK]
        exact happ
      · rw [if_neg hK]
        exact ih _ happ

theorem fill_from_candidates_length_ge (cands : List Snippet) :
    ∀ snips : List Snippet, (cands.map Snippet.id).Nodup →
      min TOP_K_FINAL
          (snips.length +
            (cands.filter (fun x => decide (x.id ∉ snips.map Snippet.id))).length) ≤
        (fill_from_candidates cands snips).length := by
  induction cands with
  | nil =>
    intro snips _
    simp only [fill_from_candidates, List.filter_nil, List.length_nil, Nat.add_zero]
    exact min_le_right _ _
  | cons c rest ih =>
    intro snips hnd
    have hcrest : c.id ∉ rest.map Snippet.id := (List.nodup_cons.mp hnd).1
    have hndrest : (rest.map Snippet.id).Nodup := (List.nodup_cons.mp hnd).2
    simp only [fill_from_candidates]
    by_cases hmem : c.id ∈ snips.map Snippet.id
    · rw [if_pos hmem]
      have hpc : (decide (c.id ∉ snips.map Snippet.id)) = false := by
        simp only [decide_not, Bool.not_eq_false']
        exact decide_eq_true hmem
      have hfc : ((c :: rest).filter (fun x => decide (x.id ∉ snips.map Snippet.id))) =
          rest.filter (fun x => decide (x.id ∉ snips.map Snippet.id)) := by
        rw [List.filter_cons, hpc]
        simp
      rw [hfc]
      exact ih snips hndrest
    · rw [if_neg hmem]
      have hpc : (decide (c.id ∉ snips.map Snippet.id)) = true := decide_eq_true hmem
      have hfc : ((c :: rest).filter (fun x => decide (x.id ∉ snips.map Snippet.id))) =
          c :: rest.filter (fun x => decide (x.id ∉ snips.map Snippet.id)) := by
        rw [List.filter_cons, hpc]
        simp
      rw [hfc]
      by_cases hK : TOP_K_FINAL ≤ (snips ++ [c]).length
      · rw [if_pos hK]
        exact le_trans (min_le_left _ _) hK
      · rw [if_neg hK]
        have ihx := ih (snips ++ [c]) hndrest
        have hcongr : rest.filter (fun x => decide (x.id ∉ (snips ++ [c]).map Snippet.id)) =
            rest.filter (fun x => decide (x.id ∉ snips.map Snippet.id)) := by
          apply List.filter_congr
          intro x hx
          have hxne : x.id ≠ c.id := by
            intro he
            exact hcrest (he ▸ List.mem_map_of_mem Snippet.id hx)
          simp [List.map_append, hxne]
        rw [hcongr] at ihx
        refine le_trans ?_ ihx
        apply min_le_min_left
        simp only [List.length_append, List.length_cons, List.length_singleton]
        omega

theorem retrieve_llm_length_le (candidates : List Snippet) (response : String) :
    (retrieve_with_llm_reranker candidates response).length ≤ TOP_K_FINAL := by
  have hgoal : retrieve_with_llm_reranker candidates response =
      if (((parse_llm_rerank_response response).take TOP_K_FINAL).filterMap
            (id_to_candidate candidates)).length < TOP_K_FINAL then
        fill_from_candidates candidates
          (((parse_llm_rerank_response response).take TOP_K_FINAL).filterMap
            (id_to_candidate candidates))
      else
        ((parse_llm_rerank_response response).take TOP_K_FINAL).filterMap
          (id_to_candidate candidates) := rfl
  rw [hgoal]
  by_cases h : (((parse_llm_rerank_response response).take TOP_K_FINAL).filterMap
      (id_to_candidate candidates)).length < TOP_K_FINAL
  · rw [if_pos h]
    exact fill_from_candidates_length_le _ _ h
  · rw [if_neg h]
    exact le_trans (List.length_filterMap_le _ _) (List.length_take_le _ _)

/-- Claim C2, counterexample: the code truncates the extracted token list to
`TOP_K_FINAL` entries *before* checking validity (`ranked_ids[:TOP_K_FINAL]`),
it does not keep the first `TOP_K_FINAL` valid ids.  With candidates
`[40, 10, 20, 30, 50]` and response `"999 998 10 20 30 40"` the first four
tokens are `999, 998, 10, 20`, so only `10, 20` are selected and the
fallback fills `40, 30` in pre-rerank order, while the claim selects
`10, 20, 30, 40` in judge order. -/
theorem llm_rerank_truncate_counterexample :
    retrieve_with_llm_reranker [mkSnip 40, mkSnip 10, mkSnip 20, mkSnip 30, mkSnip 50]
        "999 998 10 20 30 40" = [mkSnip 10, mkSnip 20, mkSnip 40, mkSnip 30] ∧
    llm_select_spec [mkSnip 40, mkSnip 10, mkSnip 20, mkSnip 30, mkSnip 50]
        "999 998 10 20 30 40" = [mkSnip 10, mkSnip 20, mkSnip 30, mkSnip 40] ∧
    retrieve_with_llm_reranker [mkSnip 40, mkSnip 10, mkSnip 20, mkSnip 30, mkSnip 50]
        "999 998 10 20 30 40" ≠
      llm_select_spec [mkSnip 40, mkSnip 10, mkSnip 20, mkSnip 30, mkSnip 50]
        "999 998 10 20 30 40" := by
  refine ⟨by decide, by decide, by decide⟩

/-- Claim C2 (amended): the LLMRerank variant selects, among the *first*
`TOP_K_FINAL` integer tokens extracted from the response, those that are
valid candidate ids (truncate before filtering, in token order); if fewer
than `TOP_K_FINAL` snippets result, it appends remaining original candidates
in pre-rerank order, skipping ids already selected.  For candidates with
distinct ids the result never has fewer than
`min(TOP_K_FINAL, number of candidates)` snippets — with a full retrieval of
`TOP_K_RETRIEVAL` candidates, never fewer than
`min(TOP_K_FINAL, TOP_K_RETRIEVAL)` — however malformed the response. -/
theorem llm_rerank_fallback_spec (candidates : List Snippet) (response : String)
    (hnd : (candidates.map Snippet.id).Nodup) :
    min TOP_K_FINAL candidates.length ≤
      (retrieve_with_llm_reranker candidates response).length ∧
    (retrieve_with_llm_reranker candidates response).length ≤ TOP_K_FINAL := by
  refine ⟨?_, retrieve_llm_length_le candidates response⟩
  have hgoal : retrieve_with_llm_reranker candidates response =
      if (((parse_llm_rerank_response response).take TOP_K_FINAL).filterMap
            (id_to_candidate candidates)).length < TOP_K_FINAL then
        fill_from_candidates candidates
          (((parse_llm_rerank_response response).take TOP_K_FINAL).filterMap
            (id_to_candidate candidates))
      else
        ((parse_llm_rerank_response response).take TOP_K_FINAL).filterMap
          (id_to_candidate candidates) := rfl
  rw [hgoal]
  set P := ((parse_llm_rerank_response response).take TOP_K_FINAL).filterMap
    (id_to_candidate candidates) with hPdef
  have hPle : P.length ≤ TOP_K_FINAL :=
    le_trans (List.length_filterMap_le _ _) (List.length_take_le _ _)
  by_cases h : P.length < TOP_K_FINAL
  · rw [if_pos h]
    have hge := fill_from_candidates_length_ge candidates P hnd
    refine le_trans ?_ hge
    apply min_le_min_left
    have hsplit := List.length_eq_length_filter_add
      (l := candidates) (fun x => decide (x.id ∉ P.map Snippet.id))
    have hold : (candidates.filter
        (fun x => !(decide (x.id ∉ P.map Snippet.id)))).length ≤ P.length := by
      have hsub : ((candidates.filter
          (fun x => !(decide (x.id ∉ P.map Snippet.id)))).map Snippet.id) ⊆
          P.map Snippet.id := by
        intro a ha
        rcases List.mem_map.mp ha with ⟨x, hx, rfl⟩
        have hcond := (List.mem_filter.mp hx).2
        simp only [Bool.not_eq_true', decide_eq_false_iff_not, not_not] at hcond
        exact hcond
      have hndf : ((candidates.filter
          (fun x => !(decide (x.id ∉ P.map Snippet.id)))).map Snippet.id).Nodup :=
        List.Nodup.sublist ((List.filter_sublist candidates).map Snippet.id) hnd
      have hle := (List.subperm_of_subset hndf hsub).length_le
      simpa using hle
    omega
  · rw [if_neg h]
    have hPK : P.length = TOP_K_FINAL := le_antisymm hPle (not_lt.mp h)
    rw [hPK]
    exact min_le_left _ _

/-- Witness for `llm_rerank_fallback_spec` at two distinct candidates and a
response with no valid id. -/
theorem llm_rerank_fallback_spec_witness :
    min TOP_K_FINAL ([mkSnip 1, mkSnip 2] : List Snippet).length ≤
      (retrieve_with_llm_reranker [mkSnip 1, mkSnip 2] "junk").length ∧
    (retrieve_with_llm_reranker [mkSnip 1, mkSnip 2] "junk").length ≤ TOP_K_FINAL :=
  llm_rerank_fallback_spec [mkSnip 1, mkSnip 2] "junk" (by decide)

/-- Claim C3, counterexample: with five distinct candidates, the LLMRerank
variant returns four copies of candidate `1` when the reranker response
repeats a valid id (`"1 1 1 1"`): the selection loop over
`ranked_ids[:TOP_K_FINAL]` never deduplicates. -/
theorem llm_rerank_duplicates_counterexample :
    (([mkSnip 1, mkSnip 2, mkSnip 3, mkSnip 4, mkSnip 5] : List Snippet).map
      Snippet.id).Nodup ∧
    (retrieve_with_llm_reranker [mkSnip 1, mkSnip 2, mkSnip 3, mkSnip 4, mkSnip 5]
        "1 1 1 1").map Snippet.id = [1, 1, 1, 1] ∧
    ¬ ((retrieve_with_llm_reranker [mkSnip 1, mkSnip 2, mkSnip 3, mkSnip 4, mkSnip 5]
        "1 1 1 1").map Snippet.id).Nodup := by
  refine ⟨by decide, by decide, by decide⟩

/-- Claim C3 (amended): for candidates with distinct ids, every variant
returns at most `TOP_K_FINAL` snippets; Baseline and CrossEncoderRerank
never return duplicate ids; LLMRerank returns no duplicate ids whenever the
valid ids among the first `TOP_K_FINAL` extracted integer tokens are
pairwise distinct — a response repeating a valid id inside its first
`TOP_K_FINAL` tokens produces duplicates. -/
theorem retrieve_no_duplicate_ids (score : String → ℚ) (candidates : List Snippet)
    (response : String) (hnd : (candidates.map Snippet.id).Nodup) :
    ((retrieve_baseline candidates).length ≤ TOP_K_FINAL ∧
      ((retrieve_baseline candidates).map Snippet.id).Nodup) ∧
    ((retrieve_with_cross_encoder score candidates).length ≤ TOP_K_FINAL ∧
      ((retrieve_with_cross_encoder score candidates).map Snippet.id).Nodup) ∧
    ((retrieve_with_llm_reranker candidates response).length ≤ TOP_K_FINAL ∧
      ((((parse_llm_rerank_response response).take TOP_K_FINAL).filter
          (fun i => (id_to_candidate candidates i).isSome)).Nodup →
        ((retrieve_with_llm_reranker candidates response).map Snippet.id).Nodup)) := by
  refine ⟨⟨?_, ?_⟩, ⟨?_, ?_⟩, retrieve_llm_length_le candidates response, ?_⟩
  · exact List.length_take_le _ _
  · exact List.Nodup.sublist ((List.take_sublist _ _).map Snippet.id) hnd
  · simp only [retrieve_with_cross_encoder, List.length_map]
    exact List.length_take_le _ _
  · have hperm : (cross_encoder_ranked score candidates).Perm
        (cross_encoder_pairs score candidates) := List.mergeSort_perm _ _
    have hfst : (cross_encoder_pairs score candidates).map Prod.fst = candidates :=
      List.map_fst_zip _ _ (le_of_eq (List.length_map _ _).symm)
    have hperm2 : ((cross_encoder_ranked score candidates).map
        (fun p : Snippet × ℚ => p.1.id)).Perm (candidates.map Snippet.id) := by
      have := hperm.map (fun p : Snippet × ℚ => p.1.id)
      refine this.trans ?_
      rw [show ((cross_encoder_pairs score candidates).map
        (fun p : Snippet × ℚ => p.1.id)) = ((cross_encoder_pairs score candidates).map
          Prod.fst).map Snippet.id from by rw [List.map_map]; rfl] at this ⊢
      rw [hfst]
    have hnd2 : ((cross_encoder_ranked score candidates).map
        (fun p : Snippet × ℚ => p.1.id)).Nodup := hperm2.nodup_iff.mpr hnd
    have hsub : (((cross_encoder_ranked score candidates).take TOP_K_FINAL).map
        (fun p : Snippet × ℚ => p.1.id)).Sublist
        ((cross_encoder_ranked score candidates).map (fun p : Snippet × ℚ => p.1.id)) :=
      (List.take_sublist _ _).map _
    have : ((retrieve_with_cross_encoder score candidates).map Snippet.id) =
        ((cross_encoder_ranked score candidates).take TOP_K_FINAL).map
          (fun p : Snippet × ℚ => p.1.id) := by
      simp [retrieve_with_cross_encoder, List.map_map]
      rfl
    rw [this]
    exact List.Nodup.sublist hsub hnd2
  · intro hvalid
    have hgoal : retrieve_with_llm_reranker candidates response =
        if (((parse_llm_rerank_response response).take TOP_K_FINAL).filterMap
              (id_to_candidate candidates)).length < TOP_K_FINAL then
          fill_from_candidates candidates
            (((parse_llm_rerank_response response).take TOP_K_FINAL).filterMap
              (id_to_candidate candidates))
        else
          ((parse_llm_rerank_response response).take TOP_K_FINAL).filterMap
            (id_to_candidate candidates) := rfl
    have hPnd : ((((parse_llm_rerank_response response).take TOP_K_FINAL).filterMap
        (id_to_candidate candidates)).map Snippet.id).Nodup := by
      rw [filterMap_lookup_map_id]
      exact hvalid
    rw [hgoal]
    by_cases h : (((parse_llm_rerank_response response).take TOP_K_FINAL).filterMap
        (id_to_candidate candidates)).length < TOP_K_FINAL
    · rw [if_pos h]
      exact fill_from_candidates_nodup _ _ hPnd
    · rw [if_neg h]
      exact hPnd

/-- Witness for `retrieve_no_duplicate_ids` at two distinct candidates and
a duplicate-free reranker response. -/
theorem retrieve_no_duplicate_ids_witness :
    ((retrieve_baseline [mkSnip 1, mkSnip 2]).map Snippet.id).Nodup ∧
    ((retrieve_with_llm_reranker [mkSnip 1, mkSnip 2] "2 1").map Snippet.id).Nodup :=
  ⟨((retrieve_no_duplicate_ids (fun _ => 0) [mkSnip 1, mkSnip 2] "2 1" (by decide)).1).2,
   ((retrieve_no_duplicate_ids (fun _ => 0) [mkSnip 1, mkSnip 2] "2 1"
      (by decide)).2.2).2 (by decide)⟩

/-! ## Context formatting (`format_context` of `core/rag_system.py`) -/

/-- The numbered block emitted for the snippet at 0-indexed position `p.1`
(`enumerate(snippets, 1)` makes the printed number `p.1 + 1`):
`[i] Topic: ...\n    Title: ...\n    Content: ...\n    Source: ...\n\n`. -/
def context_block (p : Nat × Snippet) : String :=
  "[" ++ toString (p.1 + 1) ++ "] Topic: " ++ p.2.topic ++ "\n" ++
  "    Title: " ++ p.2.title ++ "\n" ++
  "    Content: " ++ p.2.content ++ "\n" ++
  "    Source: " ++ p.2.source ++ "\n\n"

/-- `format_context`: empty string on no snippets, otherwise a header, one
numbered block per snippet accumulated in order, then the footer and the
fixed instruction line. -/
def format_context (snippets : List Snippet) : String :=
  if snippets = [] then ""
  else
    (snippets.enum.foldl (fun acc p => acc ++ context_block p)
      "=== RETRIEVED KNOWLEDGE BASE CONTEXT ===\n\n") ++
    "=== END OF CONTEXT ===\n\n" ++
    "Use the above context to answer the user\x27s question.\n"

/-- The concatenation of the numbered blocks, in rank order. -/
def context_blocks : List (Nat × Snippet) → String
  | [] => ""
  | p :: rest => context_block p ++ context_blocks rest

/-- Number of positions of `s` at which `pat` occurs as a substring, the
reading of "occurs exactly once" used by claim C10. -/
def countOccurrences (pat s : List Char) : Nat :=
  ((List.range (s.length + 1)).filter (fun i => pat.isPrefixOf (s.drop i))).length

theorem foldl_context_block (l : List (Nat × Snippet)) (acc : String) :
    l.foldl (fun acc p => acc ++ context_block p) acc = acc ++ context_blocks l := by
  induction l generalizing acc with
  | nil => simp [context_blocks]
  | cons p rest ih => simp [context_blocks, ih (acc ++ context_block p), String.append_assoc]

set_option maxRecDepth 40000 in
/-- Claim C10, counterexample: for the single snippet with topic `"o"` the
topic string occurs as a substring of the formatted context many times (in
`Topic`, `Content`, `Source`, the instruction line, ...), not exactly once. -/
theorem format_context_once_counterexample :
    format_context [⟨1, "o", "t", "c", "s"⟩] ≠ "" ∧
    0 < countOccurrences "o".data (format_context [⟨1, "o", "t", "c", "s"⟩]).data ∧
    countOccurrences "o".data (format_context [⟨1, "o", "t", "c", "s"⟩]).data ≠ 1 := by
  refine ⟨by decide, by decide, by decide⟩

theorem context_block_contains_topic (p : Nat × Snippet) :
    p.2.topic.data <:+: (context_block p).data := by
  refine ⟨("[" ++ toString (p.1 + 1) ++ "] Topic: ").data,
    ("\n" ++ "    Title: " ++ p.2.title ++ "\n" ++ "    Content: " ++ p.2.content ++ "\n" ++
      "    Source: " ++ p.2.source ++ "\n\n").data, ?_⟩
  simp [context_block, List.append_assoc]

theorem context_block_contains_title (p : Nat × Snippet) :
    p.2.title.data <:+: (context_block p).data := by
  refine ⟨("[" ++ toString (p.1 + 1) ++ "] Topic: " ++ p.2.topic ++ "\n" ++
    "    Title: ").data,
    ("\n" ++ "    Content: " ++ p.2.content ++ "\n" ++
      "    Source: " ++ p.2.source ++ "\n\n").data, ?_⟩
  simp [context_block, List.append_assoc]

theorem context_block_contains_content (p : Nat × Snippet) :
    p.2.content.data <:+: (context_block p).data := by
  refine ⟨("[" ++ toString (p.1 + 1) ++ "] Topic: " ++ p.2.topic ++ "\n" ++
    "    Title: " ++ p.2.title ++ "\n" ++ "    Content: ").data,
    ("\n" ++ "    Source: " ++ p.2.source ++ "\n\n").data, ?_⟩
  simp [context_block, List.append_assoc]

theorem context_block_contains_source (p : Nat × Snippet) :
    p.2.source.data <:+: (context_block p).data := by
  refine ⟨("[" ++ toString (p.1 + 1) ++ "] Topic: " ++ p.2.topic ++ "\n" ++
    "    Title: " ++ p.2.title ++ "\n" ++ "    Content: " ++ p.2.content ++ "\n" ++
    "    Source: ").data, ("\n\n").data, ?_⟩
  simp [context_block, List.append_assoc]

theorem context_block_in_blocks {p : Nat × Snippet} :
    ∀ {pl : List (Nat × Snippet)}, p ∈ pl →
      (context_block p).data <:+: (context_blocks pl).data := by
  intro pl hp
  induction pl with
  | nil => cases hp
  | cons q rest ih =>
    rcases List.mem_cons.mp hp with rfl | hp'
    · exact ⟨[], (context_blocks rest).data, by simp [context_blocks]⟩
    · refine (ih hp').trans ?_
      have : (context_blocks (q :: rest)).data =
          (context_block q).data ++ (context_blocks rest).data := by
        simp [context_blocks]
      rw [this]
      exact (List.suffix_append _ _).isInfix

/-- Claim C10 (amended): `format_context` is a pure function of its input
(identical inputs give identical text by construction); it returns `""` on
the empty list (no header or footer); on a non-empty list it returns exactly
the header marker, then the numbered blocks in rank order, then the footer
marker and the fixed instruction line; every snippet's topic, title, content
and source occur in it as substrings (at least once — occurrences need not
be unique, since a field can also appear in the fixed template text or in
another field). -/
theorem format_context_spec :
    format_context [] = "" ∧
    (∀ l : List Snippet, l ≠ [] →
      format_context l =
        "=== RETRIEVED KNOWLEDGE BASE CONTEXT ===\n\n" ++ context_blocks l.enum ++
        ("=== END OF CONTEXT ===\n\n" ++
          "Use the above context to answer the user\x27s question.\n")) ∧
    (∀ l : List Snippet, ∀ s ∈ l,
      s.topic.data <:+: (format_context l).data ∧
      s.title.data <:+: (format_context l).data ∧
      s.content.data <:+: (format_context l).data ∧
      s.source.data <:+: (format_context l).data) := by
  have heq : ∀ l : List Snippet, l ≠ [] →
      format_context l =
        "=== RETRIEVED KNOWLEDGE BASE CONTEXT ===\n\n" ++ context_blocks l.enum ++
        ("=== END OF CONTEXT ===\n\n" ++
          "Use the above context to answer the user\x27s question.\n") := by
    intro l hl
    simp only [format_context, if_neg hl]
    rw [foldl_context_block]
    simp [String.append_assoc]
  refine ⟨by simp [format_context], heq, ?_⟩
  intro l s hs
  have hl : l ≠ [] := List.ne_nil_of_mem hs
  have hp : ∃ p ∈ l.enum, p.2 = s := by
    have hmem : s ∈ l.enum.map Prod.snd := by
      rw [List.enum_map_snd]
      exact hs
    rcases List.mem_map.mp hmem with ⟨p, hpmem, hps⟩
    exact ⟨p, hpmem, hps⟩
  rcases hp with ⟨p, hpmem, rfl⟩
  have hblocks : (context_blocks l.enum).data <:+: (format_context l).data := by
    rw [heq l hl]
    refine ⟨("=== RETRIEVED KNOWLEDGE BASE CONTEXT ===\n\n" : String).data,
      ("=== END OF CONTEXT ===\n\n" ++
        "Use the above context to answer the user\x27s question.\n" : String).data, ?_⟩
    simp [List.append_assoc]
  have hblock := context_block_in_blocks hpmem
  exact ⟨((context_block_contains_topic p).trans hblock).trans hblocks,
    ((context_block_contains_title p).trans hblock).trans hblocks,
    ((context_block_contains_content p).trans hblock).trans hblocks,
    ((context_block_contains_source p).trans hblock).trans hblocks⟩

/-- Witness for `format_context_spec` at a concrete one-snippet list. -/
theorem format_context_spec_witness :
    format_context [mkSnip 1] =
      "=== RETRIEVED KNOWLEDGE BASE CONTEXT ===\n\n" ++
        context_blocks ([mkSnip 1] : List Snippet).enum ++
        ("=== END OF CONTEXT ===\n\n" ++
          "Use the above context to answer the user\x27s question.\n") ∧
    (mkSnip 1).topic.data <:+: (format_context [mkSnip 1]).data :=
  ⟨format_context_spec.2.1 [mkSnip 1] (by decide),
   (format_context_spec.2.2 [mkSnip 1] (mkSnip 1) (by decide)).1⟩

/-! ## Dialogue replay (`BatchReplay.run` of `batch_replay.py`)

The conversational model and the retrieval pipeline are parameters
(`respond`, `retrieveFn`); wall-clock latency is external I/O and is not
modelled.  The `while idx < len(...)` loop with its one-turn lookahead is
embedded as a recursion that consumes one turn (`user` turn not followed by
an assistant turn, or non-`user` turn: `idx += 1`) or two turns (`user` turn
whose successor is an `assistant` ground-truth turn: the extra `idx += 1`
skip); the two-element pattern below is that case split. -/

/-- A recorded dialogue turn (`speaker`, `utterance`; ground-truth fields
are carried only by assistant turns in the corpus). -/
structure DialogueTurn where
  speaker : String
  utterance : String
  utterance_ref : Option String
  grounding_snippets : Option (List Snippet)
  deriving DecidableEq, Repr

/-- The per-user-turn record built by `BatchReplay.run` (`turn_result`);
`ground_truth_response` and `ground_truth_snippets` stay `none` unless the
following recorded turn is an assistant turn. -/
structure TurnResult where
  turn_index : Nat
  user_input : String
  system_response : String
  retrieved_snippets : List Snippet
  ground_truth_response : Option String
  ground_truth_snippets : Option (List Snippet)
  deriving DecidableEq, Repr

/-- The record built for a user turn before ground-truth attachment:
retrieval, context formatting and generation happen here (the accumulated
streamed response is `respond turn.utterance`). -/
def mk_turn_result (retrieveFn : String → List Snippet) (respond : String → String)
    (idx : Nat) (turn : DialogueTurn) : TurnResult :=
  { turn_index := idx
    user_input := turn.utterance
    system_response := respond turn.utterance
    retrieved_snippets := retrieveFn turn.utterance
    ground_truth_response := none
    ground_truth_snippets := none }

/-- The turn loop of `BatchReplay.run`: on a user turn produce a
`TurnResult`; if the immediately following turn is an assistant turn,
attach its `utterance_ref` and `grounding_snippets` as ground truth and
skip it; non-user turns produce nothing. -/
def replay_turns (retrieveFn : String → List Snippet) (respond : String → String) :
    List DialogueTurn → Nat → List TurnResult
  | [], _ => []
  | [turn], idx =>
    if turn.speaker = "user" then [mk_turn_result retrieveFn respond idx turn] else []
  | turn :: next :: rest2, idx =>
    if turn.speaker = "user" then
      if next.speaker = "assistant" then
        { mk_turn_result retrieveFn respond idx turn with
            ground_truth_response := next.utterance_ref
            ground_truth_snippets := next.grounding_snippets } ::
          replay_turns retrieveFn respond rest2 (idx + 2)
      else
        mk_turn_result retrieveFn respond idx turn ::
          replay_turns retrieveFn respond (next :: rest2) (idx + 1)
    else replay_turns retrieveFn respond (next :: rest2) (idx + 1)

/-- Claim C9: the orchestrator produces exactly one `TurnResult` per user
turn (the output length is the number of user turns); whenever the turn at
position `j` is a user turn and the turn at `j + 1` is an assistant turn,
some produced result carries index `j` and that assistant turn's
`utterance_ref` and `grounding_snippets` as ground truth; and every produced
result points back to a user turn — an assistant turn never yields a
`TurnResult` of its own and is never replayed. -/
theorem replay_turns_spec (retrieveFn : String → List Snippet) (respond : String → String) :
    ∀ (ts : List DialogueTurn) (i : Nat),
      (replay_turns retrieveFn respond ts i).length =
        ts.countP (fun t => decide (t.speaker = "user")) ∧
      (∀ (j : Nat) (u a : DialogueTurn),
        ts[j]? = some u → u.speaker = "user" →
        ts[j + 1]? = some a → a.speaker = "assistant" →
        ∃ r ∈ replay_turns retrieveFn respond ts i,
          r.turn_index = i + j ∧
          r.ground_truth_response = a.utterance_ref ∧
          r.ground_truth_snippets = a.grounding_snippets) ∧
      (∀ r ∈ replay_turns retrieveFn respond ts i,
        i ≤ r.turn_index ∧
        ∃ u : DialogueTurn, ts[r.turn_index - i]? = some u ∧ u.speaker = "user") := by
  intro ts i
  induction ts, i using replay_turns.induct retrieveFn respond with
  | case1 i =>
    refine ⟨by simp [replay_turns], ?_, ?_⟩
    · intro j u a hj
      simp at hj
    · intro r hr
      simp [replay_turns] at hr
  | case2 turn i huser =>
    refine ⟨by simp [replay_turns, huser], ?_, ?_⟩
    · intro j u a hj hu ha hsa
      obtain _ | j := j
      · simp at ha
      · simp at ha
    · intro r hr
      simp only [replay_turns, if_pos huser, List.mem_singleton] at hr
      subst hr
      exact ⟨le_refl _, turn, by simp [mk_turn_result], huser⟩
  | case3 turn i huser =>
    refine ⟨by simp [replay_turns, huser], ?_, ?_⟩
    · intro j u a hj hu ha hsa
      obtain _ | j := j
      · simp at hj
        exact absurd (hj ▸ hu) huser
      · simp at hj
    · intro r hr
      simp [replay_turns, huser] at hr
  | case4 turn next rest2 i huser hassist ih =>
    obtain ⟨ih1, ih2, ih3⟩ := ih
    have hnextuser : ¬ next.speaker = "user" := by
      rw [hassist]
      decide
    have hR : replay_turns retrieveFn respond (turn :: next :: rest2) i =
        ({ mk_turn_result retrieveFn respond i turn with
            ground_truth_response := next.utterance_ref
            ground_truth_snippets := next.grounding_snippets } ::
          replay_turns retrieveFn respond rest2 (i + 2)) := by
      simp [replay_turns, huser, hassist]
    refine ⟨?_, ?_, ?_⟩
    · rw [hR]
      simp [List.countP_cons, huser, hnextuser, ih1]
    · intro j u a hj hu ha hsa
      obtain _ | _ | j := j
      · refine ⟨{ mk_turn_result retrieveFn respond i turn with
            ground_truth_response := next.utterance_ref
            ground_truth_snippets := next.grounding_snippets }, ?_, ?_, ?_, ?_⟩
        · rw [hR]; exact List.mem_cons_self _ _
        · simp [mk_turn_result]
        · simp only [List.getElem?_cons_succ, List.getElem?_cons_zero] at ha
          cases ha
          rfl
        · simp only [List.getElem?_cons_succ, List.getElem?_cons_zero] at ha
          cases ha
          rfl
      · simp only [List.getElem?_cons_succ, List.getElem?_cons_zero] at hj
        cases hj
        exact absurd hu hnextuser
      · simp only [List.getElem?_cons_succ] at hj ha
        obtain ⟨r, hrmem, hti, hresp, hsnip⟩ := ih2 j u a hj hu ha hsa
        refine ⟨r, ?_, by omega, hresp, hsnip⟩
        rw [hR]
        exact List.mem_cons_of_mem _ hrmem
    · intro r hr
      rw [hR] at hr
      rcases List.mem_cons.mp hr with rfl | hr'
      · refine ⟨le_refl _, turn, ?_, huser⟩
        simp [mk_turn_result]
      · obtain ⟨hle, u, hu, huspeak⟩ := ih3 r hr'
        refine ⟨by omega, u, ?_, huspeak⟩
        have : r.turn_index - i = (r.turn_index - (i + 2)) + 2 := by omega
        rw [this]
        simpa using hu
  | case5 turn next rest2 i huser hassist ih =>
    obtain ⟨ih1, ih2, ih3⟩ := ih
    have hR : replay_turns retrieveFn respond (turn :: next :: rest2) i =
        (mk_turn_result retrieveFn respond i turn ::
          replay_turns retrieveFn respond (next :: rest2) (i + 1)) := by
      simp [replay_turns, huser, hassist]
    refine ⟨?_, ?_, ?_⟩
    · rw [hR]
      simp [List.countP_cons, huser, ih1]
    · intro j u a hj hu ha hsa
      obtain _ | j := j
      · simp only [List.getElem?_cons_succ, List.getElem?_cons_zero] at ha
        cases ha
        exact absurd hsa hassist
      · simp only [List.getElem?_cons_succ] at hj ha
        obtain ⟨r, hrmem, hti, hresp, hsnip⟩ := ih2 j u a hj hu (by simpa using ha) hsa
        refine ⟨r, ?_, by omega, hresp, hsnip⟩
        rw [hR]
        exact List.mem_cons_of_mem _ hrmem
    · intro r hr
      rw [hR] at hr
      rcases List.mem_cons.mp hr with rfl | hr'
      · refine ⟨le_refl _, turn, ?_, huser⟩
        simp [mk_turn_result]
      · obtain ⟨hle, u, hu, huspeak⟩ := ih3 r hr'
        refine ⟨by omega, u, ?_, huspeak⟩
        have : r.turn_index - i = (r.turn_index - (i + 1)) + 1 := by omega
        rw [this]
        simpa using hu
  | case6 turn next rest2 i huser ih =>
    obtain ⟨ih1, ih2, ih3⟩ := ih
    have hR : replay_turns retrieveFn respond (turn :: next :: rest2) i =
        replay_turns retrieveFn respond (next :: rest2) (i + 1) := by
      simp [replay_turns, huser]
    refine ⟨?_, ?_, ?_⟩
    · rw [hR]
      simp [List.countP_cons, huser, ih1]
    · intro j u a hj hu ha hsa
      obtain _ | j := j
      · simp only [List.getElem?_cons_zero] at hj
        cases hj
        exact absurd hu huser
      · simp only [List.getElem?_cons_succ] at hj ha
        obtain ⟨r, hrmem, hti, hresp, hsnip⟩ := ih2 j u a hj hu (by simpa using ha) hsa
        refine ⟨r, ?_, by omega, hresp, hsnip⟩
        rw [hR]
        exact hrmem
    · intro r hr
      rw [hR] at hr
      obtain ⟨hle, u, hu, huspeak⟩ := ih3 r hr
      refine ⟨by omega, u, ?_, huspeak⟩
      have : r.turn_index - i = (r.turn_index - (i + 1)) + 1 := by omega
      rw [this]
      simpa using hu

/-- Witness for `replay_turns_spec`: a dialogue of one user turn followed by
one assistant ground-truth turn produces exactly one result, carrying the
assistant turn's reference answer and grounding snippets. -/
theorem replay_turns_spec_witness :
    (replay_turns (fun _ => ([] : List Snippet)) (fun _ => "")
        [⟨"user", "hi", none, none⟩, ⟨"assistant", "", some "gold", some [mkSnip 1]⟩]
        0).length =
      List.countP (fun t => decide (t.speaker = "user"))
        [(⟨"user", "hi", none, none⟩ : DialogueTurn),
          ⟨"assistant", "", some "gold", some [mkSnip 1]⟩] ∧
    ∃ r ∈ replay_turns (fun _ => ([] : List Snippet)) (fun _ => "")
        [⟨"user", "hi", none, none⟩, ⟨"assistant", "", some "gold", some [mkSnip 1]⟩] 0,
      r.turn_index = 0 + 0 ∧ r.ground_truth_response = some "gold" ∧
      r.ground_truth_snippets = some [mkSnip 1] :=
  ⟨(replay_turns_spec (fun _ => []) (fun _ => "")
      [⟨"user", "hi", none, none⟩, ⟨"assistant", "", some "gold", some [mkSnip 1]⟩] 0).1,
   (replay_turns_spec (fun _ => []) (fun _ => "")
      [⟨"user", "hi", none, none⟩, ⟨"assistant", "", some "gold", some [mkSnip 1]⟩] 0).2.1
      0 ⟨"user", "hi", none, none⟩ ⟨"assistant", "", some "gold", some [mkSnip 1]⟩
      rfl rfl rfl rfl⟩
